import Mathlib

/-!
Shallow embedding of the spreadsheet-to-menu ingestion pipeline of the
SGdelivery repository (src/seoulgood---delivery/types.ts), together with
proofs about it.

Modelling conventions:
* A spreadsheet cell value is either a string or an integer number
  (`Cell`).  JavaScript numbers appearing in the relevant code paths are
  integers; fractional values are not exercised by any property below.
* JavaScript string primitives (`includes`, `toLowerCase`, `trim`,
  `split`) are re-implemented over `List Char` so that all definitions
  reduce inside the kernel.  `toLowerCase` is modelled ASCII-only; the
  keyword lists of the source are ASCII or Thai (caseless), so the two
  agree on every string the code compares.
* JavaScript truthiness on the values that flow through the code
  (strings, numbers, `undefined`) is `Cell.truthy` / `cellTruthy`.
* `Number(x) || 0` is modelled by `jsNumOr0`, which parses signed
  integer literals and yields 0 otherwise (JS yields 0 both for `NaN`
  via `|| 0` and for the empty / blank string).
* The accumulator object `groupedItems` is modelled as an
  insertion-ordered list of items keyed by `name` (a prototype-free
  map; prototype-inherited keys of JS objects are not modelled).
* `XLSX.utils.sheet_to_json` is external library code: it is modelled
  as "take the header row, stringify its cells as keys, and zip the
  following rows against it, skipping blank cells"; blank-header
  columns are not modelled.
-/

inductive Cell where
  | str (s : String) : Cell
  | num (n : Int) : Cell
deriving DecidableEq, Repr

/-- JS truthiness of a cell value: non-empty string or non-zero number. -/
def Cell.truthy : Cell → Bool
  | Cell.str s => !(s == "")
  | Cell.num n => !(n == 0)

/-- JS truthiness of a possibly-`undefined` value. -/
def cellTruthy : Option Cell → Bool
  | none => false
  | some c => c.truthy

/-- JS `String(v)` on a cell value. -/
def cellToString : Cell → String
  | Cell.str s => s
  | Cell.num n => toString n

/-- JS `String(v)` on a possibly-`undefined` value. -/
def optCellToString : Option Cell → String
  | none => "undefined"
  | some c => cellToString c

/-- ASCII lower-casing of a string, modelling JS `toLowerCase` on the
inputs the code compares (ASCII keywords and caseless Thai). -/
def jsToLower (s : String) : String :=
  String.mk (s.toList.map Char.toLower)

/-- Does `pat` occur as a prefix of some suffix of `l`?  Helper for
`jsIncludes`. -/
def jsIncludesAux (pat : List Char) : List Char → Bool
  | [] => pat.isEmpty
  | c :: rest => pat.isPrefixOf (c :: rest) || jsIncludesAux pat rest

/-- JS `s.includes(pat)`: substring containment. -/
def jsIncludes (s pat : String) : Bool :=
  jsIncludesAux pat.toList s.toList

/-- JS `s.trim()`: strip leading and trailing whitespace. -/
def jsTrim (s : String) : String :=
  String.mk (((s.toList.dropWhile Char.isWhitespace).reverse.dropWhile Char.isWhitespace).reverse)

/-- Split a character list at every occurrence of `c` (JS `split` with a
one-character separator; `"".split(c)` gives `[""]`). -/
def splitCharAux (c : Char) : List Char → List (List Char)
  | [] => [[]]
  | x :: xs =>
    let r := splitCharAux c xs
    if x == c then [] :: r
    else
      match r with
      | h :: t => (x :: h) :: t
      | [] => [[x]]

/-- JS `s.split(c)` for a single-character separator. -/
def jsSplit (s : String) (c : Char) : List String :=
  (splitCharAux c s.toList).map String.mk

/-- Digits of a decimal literal, `none` when empty or non-digit. -/
def digitsToNat : List Char → Option Nat
  | [] => none
  | l => l.foldl (fun acc c =>
      match acc with
      | none => none
      | some n => if c.isDigit then some (10 * n + (c.toNat - 48)) else none)
      (some 0)

/-- JS `Number(s)` restricted to (signed) integer literals: `none`
stands for `NaN`; `Number("")` and `Number("  ")` are 0.  Decimal,
exponent and hex forms are not exercised by the code paths modelled
here. -/
def jsNumberOfString (s : String) : Option Int :=
  match (jsTrim s).toList with
  | [] => some 0
  | '-' :: ds => (digitsToNat ds).map (fun n => -(n : Int))
  | '+' :: ds => (digitsToNat ds).map (fun n => (n : Int))
  | ds => (digitsToNat ds).map (fun n => (n : Int))

/-- JS `Number(v) || 0` on a possibly-`undefined` cell value. -/
def jsNumOr0 : Option Cell → Int
  | none => 0
  | some (Cell.num n) => n
  | some (Cell.str s) => (jsNumberOfString s).getD 0

/-- A row as produced by `sheet_to_json` with a header row: an
insertion-ordered association of column-header names to cell values. -/
abbrev Row := List (String × Cell)

/-- Exact-match predicate of `getValue`: the column header equals
(case-insensitively) one of the synonym keys. -/
def exactMatch (keys : List String) (h : String) : Bool :=
  keys.any (fun s => jsToLower h == jsToLower s)

/-- Partial-match predicate of `getValue`: the column header contains
(case-insensitively) one of the synonym keys and none of the exclusion
strings. -/
def partialMatch (keys exclude : List String) (h : String) : Bool :=
  keys.any (fun s => jsIncludes (jsToLower h) (jsToLower s)) &&
  !(exclude.any (fun e => jsIncludes (jsToLower h) (jsToLower e)))

/-- `getValue` of types.ts: first the exact pass over the row's columns
in order, then the partial pass with exclusions, else `undefined`. -/
def getValue (row : Row) (keys : List String) (exclude : List String := []) : Option Cell :=
  match row.find? (fun kv => exactMatch keys kv.1) with
  | some kv => some kv.2
  | none =>
    match row.find? (fun kv => partialMatch keys exclude kv.1) with
    | some kv => some kv.2
    | none => none

/-- Rendering of the spec sentence "Return immediately on the first
synonym that exact-matches any column": iterate over the synonyms
first, not over the columns.  Used only to compare the spec's words
against `getValue`; the partial pass is the code's. -/
def getValueSpecSynonymOrder (row : Row) (keys : List String) (exclude : List String := []) : Option Cell :=
  match keys.findSome? (fun s => row.find? (fun kv => jsToLower kv.1 == jsToLower s)) with
  | some kv => some kv.2
  | none =>
    match row.find? (fun kv => partialMatch keys exclude kv.1) with
    | some kv => some kv.2
    | none => none

structure MenuChoice where
  name : String
  priceModifier : Int
deriving DecidableEq, Repr

structure MenuOption where
  name : String
  choices : List MenuChoice
deriving DecidableEq, Repr

structure MenuItem where
  id : String
  category : String
  name : String
  price : Int
  description : Option String
  image : String
  isSpicy : Bool
  options : List MenuOption
deriving DecidableEq, Repr

structure AppConfig where
  logoUrl : Option String := none
  qrCodeUrl : Option String := none
  lineOaId : Option String := none
deriving DecidableEq, Repr

structure MenuData where
  items : List MenuItem
  config : AppConfig
deriving DecidableEq, Repr

/-- The running accumulator of `fetchMenuFromSheet`: the `groupedItems`
map (as an insertion-ordered list keyed by `name`) and the `config`
object. -/
structure PipeState where
  items : List MenuItem
  config : AppConfig
deriving DecidableEq, Repr

def emptyState : PipeState := { items := [], config := {} }

/-- `processImageUrl`: leftmost match of the first regex alternative
`\/d\/(.*?)\/`, i.e. the lazy text between a literal "/d/" and the next
"/".  `splitBeforeChar c l` is the text before the first `c`, `none`
when `c` is absent. -/
def splitBeforeChar (c : Char) : List Char → Option (List Char)
  | [] => none
  | x :: xs => if x == c then some [] else (splitBeforeChar c xs).map (fun l => x :: l)

/-- First regex alternative of `processImageUrl` at one position. -/
def driveAlt1 : List Char → Option String
  | '/' :: 'd' :: '/' :: rest => (splitBeforeChar '/' rest).map String.mk
  | _ => none

/-- Second regex alternative `id=(.*?)(&|$)` at one position: text after
a literal "id=" up to the first "&", or to the end when "&" is absent. -/
def driveAlt2 : List Char → Option String
  | 'i' :: 'd' :: '=' :: rest =>
    some (String.mk (match splitBeforeChar '&' rest with
      | some pre => pre
      | none => rest))
  | _ => none

/-- Leftmost match of `\/d\/(.*?)\/|id=(.*?)(&|$)` with the JS
`idMatch[1] || idMatch[2]` selection of the extracted id (an empty
first group falls through to the undefined second group, which JS
renders as the string "undefined" in the template).  The JS dot does
not match a newline; the URLs reaching this helper are single-line. -/
def driveIdScan : List Char → Option String
  | [] => none
  | x :: rest =>
    match driveAlt1 (x :: rest) with
    | some g1 => some (if g1 == "" then ("undefined") else g1)
    | none =>
      match driveAlt2 (x :: rest) with
      | some g2 => some g2
      | none => driveIdScan rest

/-- `processImageUrl` of types.ts: rewrite a Google-Drive sharing link
to a direct-view link, pass everything else through trimmed. -/
def processImageUrl (url : String) : String :=
  if url == "" then ("")
  else
    let cleanUrl := jsTrim url
    if jsIncludes cleanUrl ("drive.google.com") then
      match driveIdScan cleanUrl.toList with
      | some id => "https://drive.google.com/uc?export=view&id=" ++ id
      | none => cleanUrl
    else cleanUrl

/-- `extractLineId` of types.ts: strip a LINE deep-link URL down to its
trailing path segment (after the final "/", before the first "?"). -/
def extractLineId (val : Cell) : String :=
  if !val.truthy then ("")
  else
    let str := jsTrim (cellToString val)
    if jsIncludes str ("line.me") then
      (jsSplit ((jsSplit str '/').getLastD ("")) '?').headD ("")
    else str

/-- Resolved `category` field of a row: `String(getValue(...) || 'General')`. -/
def categoryOf (row : Row) : String :=
  let v := getValue row ["category", "type", "หมวด", "ประเภท", "group"]
  if cellTruthy v then optCellToString v else ("General")

/-- Resolved raw name cell of a row (before stringification and trim). -/
def rawNameOf (row : Row) : Option Cell :=
  getValue row ["name", "menu", "item", "food", "ชื่อ", "รายการ", "เมนู"]
    ["option", "choice", "ตัวเลือก", "ราคา", "price", "img"]

/-- Resolved item name: `String(rawName || '').trim()`. -/
def nameOf (row : Row) : String :=
  if cellTruthy (rawNameOf row) then jsTrim (optCellToString (rawNameOf row)) else ("")

/-- Resolved raw image cell of a row. -/
def rawImgOf (row : Row) : Option Cell :=
  getValue row ["image", "img", "url", "photo", "รูป", "pic", "link"]

/-- `rawImg ? processImageUrl(String(rawImg)) : ''`. -/
def processedImgOf (row : Row) : String :=
  if cellTruthy (rawImgOf row) then processImageUrl (optCellToString (rawImgOf row)) else ("")

/-- Is the row a configuration row: its resolved category contains one
of the configuration keywords. -/
def isConfigRow (row : Row) : Bool :=
  ["setting", "config", "system", "ตั้งค่า"].any
    (fun k => jsIncludes (jsToLower (categoryOf row)) k)

/-- The `possibleId` of the ("line") configuration branch:
`processedImg || getValue(price/value/description/option columns) || ''`,
encoded so that `none` is the falsy outcome the guard `if (possibleId)`
rejects. -/
def linePossibleId (row : Row) : Option Cell :=
  if !(processedImgOf row == "") then some (Cell.str (processedImgOf row))
  else
    let v := getValue row ["price", "cost", "ราคา", "value", "ค่า", "detail", "description", "option"]
    if cellTruthy v then v else none

/-- The configuration-row branch of `fetchMenuFromSheet`: sub-classify
by the resolved name and write the matching `config` key. -/
def applyConfigRow (cfg : AppConfig) (row : Row) : AppConfig :=
  let lowerName := jsToLower (nameOf row)
  if jsIncludes lowerName ("logo") then
    { cfg with logoUrl := some (processedImgOf row) }
  else if jsIncludes lowerName ("qr") || jsIncludes lowerName ("payment") then
    { cfg with qrCodeUrl := some (processedImgOf row) }
  else if jsIncludes lowerName ("line") then
    match linePossibleId row with
    | some c => { cfg with lineOaId := some (extractLineId c) }
    | none => cfg
  else cfg

/-- Resolved description cell of a row. -/
def descOf (row : Row) : Option Cell :=
  getValue row ["description", "detail", "รายละเอียด", "ส่วนประกอบ", "คำอธิบาย"]

/-- The deterministic placeholder image keyed by the item name with the
whitespace removed (`name.replace(/\s/g, '')`). -/
def placeholderImage (name : String) : String :=
  "https://picsum.photos/seed/" ++ String.mk (name.toList.filter (fun c => !c.isWhitespace)) ++ "/300/200"

/-- Creation of a fresh `MenuItem` from a row, `idx` being the size of
the accumulator at creation time (`Object.keys(groupedItems).length`). -/
def mkNewItem (row : Row) (idx : Nat) : MenuItem :=
  let name := nameOf row
  let desc := descOf row
  { id := "item-" ++ toString idx
    category := categoryOf row
    name := name
    price := jsNumOr0 (getValue row ["price", "cost", "ราคา", "บาท"] ["option"])
    description := if cellTruthy desc then some (optCellToString desc) else none
    image := if processedImgOf row == "" then placeholderImage name else processedImgOf row
    isSpicy := jsIncludes name ("Spicy") ||
      (cellTruthy desc && jsIncludes (optCellToString desc) ("พริก")) ||
      jsIncludes name ("ต้มยำ") || jsIncludes name ("เผ็ด")
    options := [] }

/-- Append the choice to the group unless a choice of that name is
already present (the body of the row-based option merge). -/
def addChoiceGroup (o : MenuOption) (choiceName : String) (m : Int) : MenuOption :=
  if o.choices.any (fun c => c.name == choiceName) then o
  else { o with choices := o.choices ++ [{ name := choiceName, priceModifier := m }] }

/-- Row-based option merge on the options list: find the first group of
that name and add the choice to it, or append a new group at the end
(`find` / push of the source, written as a recursion). -/
def addChoice : List MenuOption → String → String → Int → List MenuOption
  | [], g, c, m => [{ name := g, choices := [{ name := c, priceModifier := m }] }]
  | o :: os, g, c, m =>
    if o.name == g then addChoiceGroup o c m :: os
    else o :: addChoice os g c m

/-- JS strict equality `o.name === optName` between a group name and a
raw cell value: true only for an identical string cell. -/
def cellStrEq (s : String) (c : Cell) : Bool :=
  match c with
  | Cell.str t => s == t
  | Cell.num _ => false

/-- Merge the comma-separated choice names into an existing choices
list, skipping names already present (the check runs against the
growing list, so in-batch duplicates are also dropped). -/
def mergeNewChoices (choices : List MenuChoice) (strs : List String) : List MenuChoice :=
  strs.foldl (fun acc c =>
    if acc.any (fun ec => ec.name == c) then acc
    else acc ++ [{ name := c, priceModifier := 0 }]) choices

/-- Comma-separated fallback merge on the options list: the first group
whose name strictly equals the raw `option_header` cell is merged into,
otherwise a new group named `String(optName)` is appended. -/
def addCommaChoices : List MenuOption → Cell → List String → List MenuOption
  | [], optName, strs =>
    [{ name := cellToString optName, choices := strs.map (fun c => { name := c, priceModifier := 0 }) }]
  | o :: os, optName, strs =>
    if cellStrEq o.name optName then { o with choices := mergeNewChoices o.choices strs } :: os
    else o :: addCommaChoices os optName strs

/-- Encoding 2 of the option parsing (comma-separated fallback), run
only when encoding 1 did not apply. -/
def commaFallback (row : Row) (opts : List MenuOption) : List MenuOption :=
  let optName := getValue row ["option_header", "หัวข้อ"] ["group"]
  let optChoices := getValue row ["option_choices", "choices", "selections"] ["group", "name"]
  if cellTruthy optName && cellTruthy optChoices then
    let strs := ((jsSplit (optCellToString optChoices) ',').map jsTrim).filter (fun s => !(s == ""))
    if strs.isEmpty then opts
    else
      match optName with
      | some c => addCommaChoices opts c strs
      | none => opts
  else opts

/-- The full option-parsing block of `fetchMenuFromSheet` applied to an
options list: row-based encoding first, comma-separated fallback when
it did not apply. -/
def addRowOptions (row : Row) (opts : List MenuOption) : List MenuOption :=
  let optGroupKey := getValue row ["option_group_name", "group_name", "option_group", "หัวข้อตัวเลือก", "กลุ่มตัวเลือก"]
  let optChoiceKey := getValue row ["option_name", "choice_name", "sub_option", "ตัวเลือก", "ชื่อตัวเลือก"]
  let priceMod := jsNumOr0 (getValue row ["option_price_modifier", "price_modifier", "add_price", "ราคาเพิ่ม", "บวก", "modifier"])
  if cellTruthy optGroupKey && cellTruthy optChoiceKey then
    let groupName := jsTrim (optCellToString optGroupKey)
    let choiceName := jsTrim (optCellToString optChoiceKey)
    if !(groupName == "") && !(choiceName == "") then
      addChoice opts groupName choiceName priceMod
    else commaFallback row opts
  else commaFallback row opts

/-- Option parsing on the item (`item.options` is the only field the
source mutates in this block). -/
def addRowOption (row : Row) (it : MenuItem) : MenuItem :=
  { it with options := addRowOptions row it.options }

/-- Mutation of the (unique) entry of that name in the accumulator,
modelling `const item = groupedItems[name]` followed by in-place
mutation of `item`. -/
def updateFirstItem : List MenuItem → String → (MenuItem → MenuItem) → List MenuItem
  | [], _, _ => []
  | it :: rest, n, f =>
    if it.name == n then f it :: rest
    else it :: updateFirstItem rest n f

/-- One iteration of the `rawData.forEach` body of `fetchMenuFromSheet`:
configuration rows update `config` and are never added to the item map;
rows without a truthy resolved name are skipped; item rows find-or-create
the item of their name and then fold in option data. -/
def processRow (st : PipeState) (row : Row) : PipeState :=
  if isConfigRow row then
    { st with config := applyConfigRow st.config row }
  else if !cellTruthy (rawNameOf row) then st
  else
    let n := nameOf row
    let items1 :=
      if st.items.any (fun i => i.name == n) then st.items
      else st.items ++ [mkNewItem row st.items.length]
    { st with items := updateFirstItem items1 n (addRowOption row) }

/-- Sequential fold of the row records of one sheet. -/
def processRows (st : PipeState) (rows : List Row) : PipeState :=
  rows.foldl processRow st

/-- A raw sheet as `sheet_to_json(sheet, { header: 1 })` yields it: rows
of cells, `none` standing for a blank/absent cell (a hole of the sparse
JS array). -/
abbrev Sheet := List (List (Option Cell))

/-- JSON string escaping as `JSON.stringify` performs it on the
characters that can occur here (quote, backslash, the common control
characters). -/
def jsonEscapeChar (c : Char) : List Char :=
  if c == '"' then ['\\', '"']
  else if c == '\\' then ['\\', '\\']
  else if c == '\n' then ['\\', 'n']
  else if c == '\r' then ['\\', 'r']
  else if c == '\t' then ['\\', 't']
  else [c]

def jsonEscape (s : String) : String :=
  String.mk ((s.toList.map jsonEscapeChar).flatten)

/-- `JSON.stringify` of one cell of a row array; a hole renders as
"null". -/
def jsonCell : Option Cell → String
  | none => "null"
  | some (Cell.str s) => "\"" ++ jsonEscape s ++ "\""
  | some (Cell.num n) => toString n

/-- `JSON.stringify(rows[i])` of one raw row. -/
def jsonRow (r : List (Option Cell)) : String :=
  "[" ++ String.intercalate (",") (r.map jsonCell) ++ "]"

/-- The fixed bilingual keyword set of the header-row scan. -/
def searchKeywords : List String :=
  ["name", "menu", "item", "ชื่อ", "รายการ", "category", "หมวด", "price", "ราคา"]

/-- Number of keywords occurring in the lowercased stringified row. -/
def rowMatchCount (r : List (Option Cell)) : Nat :=
  (searchKeywords.filter (fun k => jsIncludes (jsToLower (jsonRow r)) k)).length

/-- Header-row detection: the first of the (at most ten) leading rows
whose match count reaches 2, row 0 when none does. -/
def scanHeader (sheet : Sheet) : Nat :=
  match (List.range (min sheet.length 10)).find?
      (fun i => decide (2 ≤ rowMatchCount (sheet.getD i []))) with
  | some i => i
  | none => 0

/-- `sheet_to_json(sheet, { range: headerRowIndex })` modelled for the
dense case: keys are the stringified header-row cells, each following
row is zipped against them, blank cells and blank-header columns are
skipped. -/
def toRecords (sheet : Sheet) : List Row :=
  let hIdx := scanHeader sheet
  let header := sheet.getD hIdx []
  (sheet.drop (hIdx + 1)).map (fun r =>
    (header.zip r).filterMap (fun hc =>
      match hc with
      | (some h, some c) => some (cellToString h, c)
      | _ => none))

/-- Per-sheet processing: empty sheets are skipped, otherwise the
header row is detected and the records are folded in. -/
def processSheet (st : PipeState) (sheet : Sheet) : PipeState :=
  if sheet.isEmpty then st else processRows st (toRecords sheet)

/-- The whole workbook fold of `fetchMenuFromSheet`, from the empty
accumulators to the returned `{ items, config }`. -/
def processWorkbook (wb : List Sheet) : MenuData :=
  let st := wb.foldl processSheet emptyState
  { items := st.items, config := st.config }

/-- Outcome of the initial `fetch` of `fetchMenuFromSheet`: the network
call rejects, or a response arrives with a content type (HTML or not),
an HTTP status and — when it is a genuine export — a decoded workbook. -/
inductive FetchOutcome where
  | networkError : FetchOutcome
  | response (contentTypeHtml : Bool) (ok : Bool) (workbook : List Sheet) : FetchOutcome

/-- `fetchMenuFromSheet` as a function of the fetch outcome: every
throw inside the `try` (rejection, HTML content type, non-ok status)
is caught by the surrounding `catch`, which returns the empty-result
sentinel, so the function is total and never propagates an exception. -/
def fetchMenuFromSheet : FetchOutcome → MenuData
  | FetchOutcome.networkError => { items := [], config := {} }
  | FetchOutcome.response contentTypeHtml ok wb =>
    if contentTypeHtml then { items := [], config := {} }
    else if !ok then { items := [], config := {} }
    else processWorkbook wb

theorem find?_eq_of_first {α : Type} (p : α → Bool) (l : List α) :
    ∀ (i : Nat) (h : i < l.length),
      p (l.get ⟨i, h⟩) = true →
      (∀ j (hj : j < l.length), j < i → p (l.get ⟨j, hj⟩) = false) →
      l.find? p = some (l.get ⟨i, h⟩) := by
  induction l with
  | nil => intro i h hp hb; exact absurd h (Nat.not_lt_zero i)
  | cons x xs ih =>
    intro i h hp hb
    cases i with
    | zero => exact List.find?_cons_of_pos _ hp
    | succ k =>
      have hx : p x = false := hb 0 (Nat.succ_pos _) (Nat.succ_pos k)
      rw [List.find?_cons_of_neg _ (by simp [hx])]
      exact ih k (Nat.lt_of_succ_lt_succ h) hp
        (fun j hj hjk => hb (j + 1) (Nat.succ_lt_succ hj) (Nat.succ_lt_succ hjk))

/-- C1 (counterexample): the claim reads "returning on the first synonym
that exact-matches any column".  On a row whose columns `b`, `a` both
exact-match a synonym, the first synonym `a` matches the column holding
`v2`, yet `getValue` returns `v1`: the code iterates over the row's
columns, not over the synonyms. -/
theorem getValue_first_synonym_order_refuted :
    getValue [("b", Cell.str ("v1")), ("a", Cell.str ("v2"))] ["a", "b"] [] = some (Cell.str ("v1")) ∧
    getValueSpecSynonymOrder [("b", Cell.str ("v1")), ("a", Cell.str ("v2"))] ["a", "b"] [] = some (Cell.str ("v2")) := by
  constructor <;> rfl

/-- C1 (amended): `getValue` returns the value of the first column (in
the row's column order) whose header equals one of the synonyms
case-insensitively; every exact match takes priority over every partial
match; when no exact match exists it returns the value of the first
column whose header contains some synonym and no exclusion string; and
it returns `undefined` when no column qualifies under either rule. -/
theorem getValue_column_order_correct (row : Row) (keys exclude : List String) :
    (∀ (i : Nat) (h : i < row.length), exactMatch keys (row.get ⟨i, h⟩).1 = true →
      (∀ j (hj : j < row.length), j < i → exactMatch keys (row.get ⟨j, hj⟩).1 = false) →
      getValue row keys exclude = some (row.get ⟨i, h⟩).2) ∧
    ((∀ kv ∈ row, exactMatch keys kv.1 = false) →
      (∀ (i : Nat) (h : i < row.length), partialMatch keys exclude (row.get ⟨i, h⟩).1 = true →
        (∀ j (hj : j < row.length), j < i → partialMatch keys exclude (row.get ⟨j, hj⟩).1 = false) →
        getValue row keys exclude = some (row.get ⟨i, h⟩).2) ∧
      ((∀ kv ∈ row, partialMatch keys exclude kv.1 = false) →
        getValue row keys exclude = none)) := by
  refine ⟨?_, fun hnoex => ⟨?_, ?_⟩⟩
  · intro i h hp hb
    have hf := find?_eq_of_first (fun kv => exactMatch keys kv.1) row i h hp hb
    simp [getValue, hf]
  · intro i h hp hb
    have hnone : row.find? (fun kv => exactMatch keys kv.1) = none :=
      List.find?_eq_none.mpr (fun kv hkv => by simp [hnoex kv hkv])
    have hf := find?_eq_of_first (fun kv => partialMatch keys exclude kv.1) row i h hp hb
    simp [getValue, hnone, hf]
  · intro hnopar
    have hnone : row.find? (fun kv => exactMatch keys kv.1) = none :=
      List.find?_eq_none.mpr (fun kv hkv => by simp [hnoex kv hkv])
    have hnone2 : row.find? (fun kv => partialMatch keys exclude kv.1) = none :=
      List.find?_eq_none.mpr (fun kv hkv => by simp [hnopar kv hkv])
    simp [getValue, hnone, hnone2]

/-- C1 (witness): the amended theorem applied to a concrete row where
the exact rule, the partial rule and the undefined rule each fire. -/
theorem getValue_column_order_correct_witness :
    getValue [("Price", Cell.num 5)] ["price"] [] = some (Cell.num 5) ∧
    getValue [("item price", Cell.num 7)] ["price"] ["option"] = some (Cell.num 7) ∧
    getValue [("note", Cell.num 9)] ["price"] [] = none := by
  refine ⟨?_, ?_, ?_⟩
  · exact (getValue_column_order_correct [("Price", Cell.num 5)] ["price"] []).1 0 (by decide)
      (by decide) (fun j hj hj0 => absurd hj0 (Nat.not_lt_zero j))
  · exact ((getValue_column_order_correct [("item price", Cell.num 7)] ["price"] ["option"]).2
      (by decide)).1 0 (by decide) (by decide) (fun j hj hj0 => absurd hj0 (Nat.not_lt_zero j))
  · exact ((getValue_column_order_correct [("note", Cell.num 9)] ["price"] []).2 (by decide)).2
      (by decide)

/-- C2: header detection scans at most the first 10 rows, counts for
each candidate row how many of the nine fixed keywords occur as
case-insensitive substrings of its stringified form, selects the first
row reaching 2 matches, defaults to row 0 when none does within the
window, and sheets with zero rows contribute nothing to the result. -/
theorem headerRow_detection_correct :
    (∀ (sheet : Sheet) (i : Nat), i < min sheet.length 10 →
      2 ≤ rowMatchCount (sheet.getD i []) →
      (∀ j, j < i → rowMatchCount (sheet.getD j []) < 2) →
      scanHeader sheet = i) ∧
    (∀ sheet : Sheet,
      (∀ i, i < min sheet.length 10 → rowMatchCount (sheet.getD i []) < 2) →
      scanHeader sheet = 0) ∧
    (∀ st : PipeState, processSheet st [] = st) := by
  refine ⟨?_, ?_, ?_⟩
  · intro sheet i hi hcount hb
    have hlen : i < (List.range (min sheet.length 10)).length := by
      rw [List.length_range]; exact hi
    have hget : (List.range (min sheet.length 10)).get ⟨i, hlen⟩ = i := by
      simp
    have hf := find?_eq_of_first
      (fun j => decide (2 ≤ rowMatchCount (sheet.getD j [])))
      (List.range (min sheet.length 10)) i hlen
      (by rw [hget]; exact decide_eq_true hcount)
      (fun j hj hji => by
        have hgj : (List.range (min sheet.length 10)).get ⟨j, hj⟩ = j := by simp
        rw [hgj]
        have hc := hb j hji
        exact decide_eq_false (by omega))
    simp only [scanHeader, hf, hget]
  · intro sheet hall
    have hnone : (List.range (min sheet.length 10)).find?
        (fun j => decide (2 ≤ rowMatchCount (sheet.getD j []))) = none := by
      apply List.find?_eq_none.mpr
      intro x hx hpx
      have h2 := of_decide_eq_true hpx
      have h3 := hall x (List.mem_range.mp hx)
      omega
    simp only [scanHeader, hnone]
  · intro st
    rfl

/-- C2 (witness): on a sheet whose first keyword-bearing row is row 2,
detection selects row 2; on a sheet with no keyword-bearing row it
selects row 0; an empty sheet leaves the state untouched. -/
theorem headerRow_detection_correct_witness :
    scanHeader [[some (Cell.str ("My Restaurant"))], [],
      [some (Cell.str ("Name")), some (Cell.str ("Price"))],
      [some (Cell.str ("Soup")), some (Cell.num 40)]] = 2 ∧
    scanHeader [[some (Cell.str ("just a note"))]] = 0 ∧
    processSheet emptyState [] = emptyState := by
  refine ⟨?_, ?_, ?_⟩
  · exact headerRow_detection_correct.1 _ 2 (by decide) (by decide) (by decide)
  · exact headerRow_detection_correct.2.1 _ (by decide)
  · exact headerRow_detection_correct.2.2 emptyState

theorem addRowOption_name (row : Row) (it : MenuItem) :
    (addRowOption row it).name = it.name := rfl

theorem any_of_find?_eq_some {p : MenuItem → Bool} {l : List MenuItem} {it : MenuItem}
    (h : l.find? p = some it) : l.any p = true :=
  List.any_eq_true.mpr ⟨it, List.mem_of_find?_eq_some h, List.find?_some h⟩

theorem find?_updateFirstItem (f : MenuItem → MenuItem) (n : String)
    (hf : ∀ it, (f it).name = it.name) :
    ∀ (l : List MenuItem) (it : MenuItem),
      l.find? (fun i => i.name == n) = some it →
      (updateFirstItem l n f).find? (fun i => i.name == n) = some (f it) := by
  intro l
  induction l with
  | nil => intro it h; simp [List.find?] at h
  | cons x xs ih =>
    intro it h
    by_cases hx : (x.name == n) = true
    · rw [@List.find?_cons_of_pos MenuItem (fun i => i.name == n) x xs hx] at h
      injection h with h
      subst h
      simp only [updateFirstItem, if_pos hx]
      have hfx : ((f x).name == n) = true := by rw [hf x]; exact hx
      exact @List.find?_cons_of_pos MenuItem (fun i => i.name == n) (f x) xs hfx
    · rw [@List.find?_cons_of_neg MenuItem (fun i => i.name == n) x xs hx] at h
      simp only [updateFirstItem, if_neg (fun hc => hx hc)]
      rw [@List.find?_cons_of_neg MenuItem (fun i => i.name == n) x (updateFirstItem xs n f) hx]
      exact ih it h

def C3rowA : Row :=
  [("Category", Cell.str ("Main")), ("Name", Cell.str ("Bibimbap")),
   ("Price", Cell.num 50), ("Description", Cell.str ("Korean rice bowl")),
   ("Image", Cell.str ("http://example.com/a.png")),
   ("option_group_name", Cell.str ("Protein")), ("option_name", Cell.str ("Pork")),
   ("price_modifier", Cell.num 0)]

def C3rowB : Row :=
  [("Name", Cell.str ("Bibimbap")), ("Price", Cell.num 99),
   ("option_header", Cell.str ("Size")), ("option_choices", Cell.str ("S, L"))]

/-- The single item the two C3 rows fold to: all scalar fields come
from the first row, the second row only contributes its option group. -/
def C3mergedItem : MenuItem :=
  { id := "item-0", category := "Main", name := "Bibimbap", price := 50,
    description := some ("Korean rice bowl"), image := "http://example.com/a.png",
    isSpicy := false,
    options := [{ name := "Protein", choices := [{ name := "Pork", priceModifier := 0 }] },
                { name := "Size", choices := [{ name := "S", priceModifier := 0 },
                                              { name := "L", priceModifier := 0 }] }] }

/-- C3: folding a row whose resolved name equals the name of an item
already in the accumulator leaves that item's id, price, description
and image unchanged and only folds option data into it; in particular,
an item row followed by a row of the same name with a different
option-group encoding yields exactly one item carrying both option
groups with the original scalar fields intact. -/
theorem existing_item_preserved_on_merge :
    (∀ (st : PipeState) (row : Row) (it : MenuItem),
      isConfigRow row = false →
      cellTruthy (rawNameOf row) = true →
      st.items.find? (fun i => i.name == nameOf row) = some it →
      (processRow st row).items.find? (fun i => i.name == nameOf row) =
        some (addRowOption row it) ∧
      (addRowOption row it).id = it.id ∧
      (addRowOption row it).price = it.price ∧
      (addRowOption row it).description = it.description ∧
      (addRowOption row it).image = it.image) ∧
    processRows emptyState [C3rowA, C3rowB] =
      { items := [C3mergedItem], config := {} } := by
  constructor
  · intro st row it hcfg hname hfind
    have hany : st.items.any (fun i => i.name == nameOf row) = true :=
      any_of_find?_eq_some hfind
    refine ⟨?_, rfl, rfl, rfl, rfl⟩
    simp only [processRow, hcfg, hname, Bool.false_eq_true, if_false, Bool.not_true,
      hany, if_true]
    exact find?_updateFirstItem (addRowOption row) (nameOf row) (addRowOption_name row) st.items it hfind
  · decide

/-- C3 (witness): the frame theorem applied to a concrete accumulator
already holding the Bibimbap item and a concrete same-name row. -/
theorem existing_item_preserved_on_merge_witness :
    (processRow { items := [C3mergedItem], config := {} } C3rowB).items.find?
        (fun i => i.name == nameOf C3rowB) = some (addRowOption C3rowB C3mergedItem) ∧
    (addRowOption C3rowB C3mergedItem).price = C3mergedItem.price :=
  have h := existing_item_preserved_on_merge.1 { items := [C3mergedItem], config := {} }
    C3rowB C3mergedItem (by decide) (by decide) (by decide)
  ⟨h.1, h.2.2.1⟩

theorem addChoiceGroup_name (o : MenuOption) (c : String) (m : Int) :
    (addChoiceGroup o c m).name = o.name := by
  unfold addChoiceGroup; split <;> rfl

theorem addChoiceGroup_idem (o : MenuOption) (c : String) (m1 m2 : Int) :
    addChoiceGroup (addChoiceGroup o c m1) c m2 = addChoiceGroup o c m1 := by
  by_cases h : o.choices.any (fun ch => ch.name == c) = true
  · simp only [addChoiceGroup, if_pos h]
  · simp only [addChoiceGroup, if_neg h]
    have happ : ((o.choices ++ [({ name := c, priceModifier := m1 } : MenuChoice)]).any
        (fun ch => ch.name == c)) = true := by
      simp
    simp [addChoiceGroup, happ]

def C4row1 : Row :=
  [("Name", Cell.str ("Tofu Soup")), ("Price", Cell.num 60),
   ("option_group_name", Cell.str ("Spice")), ("option_name", Cell.str ("Mild")),
   ("price_modifier", Cell.num 5)]

def C4row2 : Row :=
  [("Name", Cell.str ("Tofu Soup")), ("Price", Cell.num 60),
   ("option_group_name", Cell.str ("Spice")), ("option_name", Cell.str ("Mild")),
   ("price_modifier", Cell.num 99)]

/-- The item produced by the two C4 rows: one choice entry, carrying
the first row's modifier. -/
def C4item : MenuItem :=
  { id := "item-0", category := "Spice", name := "Tofu Soup", price := 60,
    description := none, image := "https://picsum.photos/seed/TofuSoup/300/200",
    isSpicy := false,
    options := [{ name := "Spice", choices := [{ name := "Mild", priceModifier := 5 }] }] }

/-- C4: merging the same row-based option twice — identical group and
choice names, any (possibly different) price modifiers — is idempotent:
the second merge is the identity, so exactly one choice entry of that
name exists in the group; the concrete two-row fold shows it end to
end. -/
theorem row_option_merge_idempotent :
    (∀ (opts : List MenuOption) (g c : String) (m1 m2 : Int),
      addChoice (addChoice opts g c m1) g c m2 = addChoice opts g c m1) ∧
    processRows emptyState [C4row1, C4row2] = { items := [C4item], config := {} } := by
  constructor
  · intro opts g c m1 m2
    induction opts with
    | nil => simp [addChoice, addChoiceGroup]
    | cons o os ih =>
      by_cases h : (o.name == g) = true
      · simp only [addChoice, if_pos h]
        have h2 : ((addChoiceGroup o c m1).name == g) = true := by
          rw [addChoiceGroup_name]; exact h
        simp only [addChoice, if_pos h2, addChoiceGroup_idem]
      · simp only [addChoice, if_neg h, ih]
  · decide

theorem find?_updateFirstItem_append (f : MenuItem → MenuItem) (n : String)
    (hf : ∀ it, (f it).name = it.name) :
    ∀ (l : List MenuItem) (new : MenuItem),
      l.any (fun i => i.name == n) = false → (new.name == n) = true →
      (updateFirstItem (l ++ [new]) n f).find? (fun i => i.name == n) = some (f new) := by
  intro l
  induction l with
  | nil =>
    intro new hany hnew
    simp only [List.nil_append, updateFirstItem, if_pos hnew]
    have hfn : ((f new).name == n) = true := by rw [hf new]; exact hnew
    exact @List.find?_cons_of_pos MenuItem (fun i => i.name == n) (f new) [] hfn
  | cons x xs ih =>
    intro new hany hnew
    rw [List.any_cons] at hany
    have hx : (x.name == n) = false := by
      cases hxementti : (x.name == n) with
      | false => rfl
      | true => rw [hxementti] at hany; simp at hany
    have hxs : xs.any (fun i => i.name == n) = false := by
      rw [hx] at hany; simpa using hany
    have hcons : (x :: xs) ++ [new] = x :: (xs ++ [new]) := rfl
    rw [hcons]
    show List.find? (fun i => i.name == n)
      (if (x.name == n) = true then f x :: (xs ++ [new])
       else x :: updateFirstItem (xs ++ [new]) n f) = some (f new)
    rw [if_neg (by simp [hx])]
    rw [@List.find?_cons_of_neg MenuItem (fun i => i.name == n) x
      (updateFirstItem (xs ++ [new]) n f) (by simp [hx])]
    exact ih new hxs hnew

def C5row : Row :=
  [("Category", Cell.str ("Main")), ("Name", Cell.str ("Kimchi Fried Rice")),
   ("Price", Cell.num 120), ("Description", Cell.str ("เผ็ดนิดๆ"))]

/-- The item the C5 row actually folds to: the code checks ("เผ็ด") only
in the name and "พริก" only in the description, so the description
"เผ็ดนิดๆ" triggers nothing and `isSpicy` is false. -/
def C5item : MenuItem :=
  { id := "item-0", category := "Main", name := "Kimchi Fried Rice", price := 120,
    description := some ("เผ็ดนิดๆ"),
    image := "https://picsum.photos/seed/KimchiFriedRice/300/200",
    isSpicy := false, options := [] }

/-- C5 (counterexample): the claim's scenario row yields an item with
`isSpicy = false`, not `true`: the name carries no trigger and the
description is only checked for "พริก", which "เผ็ดนิดๆ" does not
contain. -/
theorem kimchi_isSpicy_refuted :
    (processRows emptyState [C5row]).items = [C5item] ∧ C5item.isSpicy = false := by
  exact ⟨by decide, rfl⟩

/-- C5 (amended): for every created item, `isSpicy` is true exactly
when the resolved name contains "Spicy" (case-sensitive), "ต้มยำ" or
"เผ็ด", or the resolved description is truthy and contains "พริก"; the
claim's scenario row therefore yields `isSpicy = false`. -/
theorem isSpicy_inference_correct :
    (∀ (st : PipeState) (row : Row),
      isConfigRow row = false →
      cellTruthy (rawNameOf row) = true →
      st.items.any (fun i => i.name == nameOf row) = false →
      ((processRow st row).items.find? (fun i => i.name == nameOf row)).map
          (fun i => i.isSpicy) =
        some (jsIncludes (nameOf row) ("Spicy") ||
          (cellTruthy (descOf row) && jsIncludes (optCellToString (descOf row)) ("พริก")) ||
          jsIncludes (nameOf row) ("ต้มยำ") || jsIncludes (nameOf row) ("เผ็ด"))) ∧
    (processRows emptyState [C5row]).items = [C5item] := by
  constructor
  · intro st row hcfg hname hfresh
    have hnew : ((mkNewItem row st.items.length).name == nameOf row) = true := by
      simp [mkNewItem]
    have hfind := find?_updateFirstItem_append (addRowOption row) (nameOf row)
      (addRowOption_name row) st.items (mkNewItem row st.items.length) hfresh hnew
    simp only [processRow, hcfg, hname, hfresh, Bool.false_eq_true, if_false,
      Bool.not_true, if_true]
    rw [hfind]
    rfl
  · decide

/-- C5 (witness): the amended rule applied to the concrete scenario
row, all hypotheses discharged by evaluation. -/
theorem isSpicy_inference_correct_witness :
    ((processRow emptyState C5row).items.find? (fun i => i.name == nameOf C5row)).map
        (fun i => i.isSpicy) =
      some (jsIncludes (nameOf C5row) ("Spicy") ||
        (cellTruthy (descOf C5row) && jsIncludes (optCellToString (descOf C5row)) ("พริก")) ||
        jsIncludes (nameOf C5row) ("ต้มยำ") || jsIncludes (nameOf C5row) ("เผ็ด")) :=
  isSpicy_inference_correct.1 emptyState C5row (by decide) (by decide) (by decide)

def C6row : Row :=
  [("Category", Cell.str ("Setting")), ("Name", Cell.str ("Line")),
   ("Price", Cell.str ("https://line.me/R/ti/p/@seoulgood"))]

/-- C6: a configuration row whose name contains ("line") sets
`config.lineOaId` from the image field first, falling back to the
price/value/description/option fields when the image field is empty
(the `linePossibleId` search), applying the deep-link stripping of
`extractLineId`; the claim's scenario row yields `"@seoulgood"`. -/
theorem line_config_extraction_correct :
    (∀ (st : PipeState) (row : Row),
      isConfigRow row = true →
      jsIncludes (jsToLower (nameOf row)) ("logo") = false →
      jsIncludes (jsToLower (nameOf row)) ("qr") = false →
      jsIncludes (jsToLower (nameOf row)) ("payment") = false →
      jsIncludes (jsToLower (nameOf row)) ("line") = true →
      (processRow st row).config.lineOaId =
        (match linePossibleId row with
         | some c => some (extractLineId c)
         | none => st.config.lineOaId)) ∧
    (processRows emptyState [C6row]).config.lineOaId = some ("@seoulgood") := by
  constructor
  · intro st row hcfg hlogo hqr hpay hline
    simp only [processRow, hcfg, if_true, applyConfigRow, hlogo, hqr, hpay, hline,
      Bool.false_eq_true, if_false, Bool.or_self, if_true]
    cases h : linePossibleId row with
    | none => simp [h]
    | some c => simp [h]
  · decide

/-- C6 (witness): the branch equation applied to the concrete scenario
row, whose `linePossibleId` resolves through the price column. -/
theorem line_config_extraction_correct_witness :
    (processRow emptyState C6row).config.lineOaId =
      (match linePossibleId C6row with
       | some c => some (extractLineId c)
       | none => emptyState.config.lineOaId) :=
  line_config_extraction_correct.1 emptyState C6row (by decide) (by decide) (by decide)
    (by decide) (by decide)

/-- C7: when the fetch rejects or the response carries an HTML content
type, `fetchMenuFromSheet` returns exactly the empty-result sentinel;
being a total function of the fetch outcome, no exception escapes the
pipeline boundary. -/
theorem fetch_failure_empty_result (f : FetchOutcome)
    (h : f = FetchOutcome.networkError ∨
      ∃ ok wb, f = FetchOutcome.response true ok wb) :
    fetchMenuFromSheet f = { items := [], config := {} } := by
  rcases h with h | ⟨ok, wb, h⟩ <;> subst h <;> simp [fetchMenuFromSheet]

/-- C7 (witness): the sentinel theorem applied to a network rejection
and to a concrete HTML response carrying a decodable workbook. -/
theorem fetch_failure_empty_result_witness :
    fetchMenuFromSheet FetchOutcome.networkError = { items := [], config := {} } ∧
    fetchMenuFromSheet (FetchOutcome.response true true [[[some (Cell.str ("Name"))]]]) =
      { items := [], config := {} } :=
  ⟨fetch_failure_empty_result FetchOutcome.networkError (Or.inl rfl),
   fetch_failure_empty_result (FetchOutcome.response true true [[[some (Cell.str ("Name"))]]])
     (Or.inr ⟨true, [[[some (Cell.str ("Name"))]]], rfl⟩)⟩

theorem updateFirstItem_map_name (f : MenuItem → MenuItem) (n : String)
    (hf : ∀ it, (f it).name = it.name) :
    ∀ l : List MenuItem,
      (updateFirstItem l n f).map (fun i => i.name) = l.map (fun i => i.name) := by
  intro l
  induction l with
  | nil => rfl
  | cons x xs ih =>
    by_cases h : (x.name == n) = true
    · simp only [updateFirstItem, if_pos h, List.map_cons, hf x]
    · simp only [updateFirstItem, if_neg h, List.map_cons, ih]

theorem processRow_names_nodup (st : PipeState) (row : Row)
    (h : (st.items.map (fun i => i.name)).Nodup) :
    (((processRow st row).items).map (fun i => i.name)).Nodup := by
  by_cases hcfg : isConfigRow row = true
  · simpa [processRow, hcfg] using h
  · by_cases hname : cellTruthy (rawNameOf row) = true
    · have hred : (processRow st row).items =
          updateFirstItem
            (if st.items.any (fun i => i.name == nameOf row) then st.items
             else st.items ++ [mkNewItem row st.items.length])
            (nameOf row) (addRowOption row) := by
        simp [processRow, hcfg, hname]
      rw [hred, updateFirstItem_map_name _ _ (addRowOption_name row)]
      cases hany : st.items.any (fun i => i.name == nameOf row) with
      | true => simpa [hany] using h
      | false =>
        have hnotmem : nameOf row ∉ st.items.map (fun i => i.name) := by
          intro hmem
          rcases List.mem_map.mp hmem with ⟨i, hi, hni⟩
          have hfalse := List.any_eq_false.mp hany i hi
          exact hfalse (by simp [hni])
        have hnm : (mkNewItem row st.items.length).name = nameOf row := rfl
        simp [hany, List.nodup_append, h, hnm, hnotmem]
    · simpa [processRow, hcfg, hname] using h

theorem processRows_names_nodup (rows : List Row) :
    ∀ st : PipeState, (st.items.map (fun i => i.name)).Nodup →
      (((processRows st rows).items).map (fun i => i.name)).Nodup := by
  induction rows with
  | nil => intro st h; exact h
  | cons r rs ih => intro st h; exact ih _ (processRow_names_nodup st r h)

theorem processSheet_names_nodup (sheet : Sheet) (st : PipeState)
    (h : (st.items.map (fun i => i.name)).Nodup) :
    (((processSheet st sheet).items).map (fun i => i.name)).Nodup := by
  unfold processSheet
  by_cases he : sheet.isEmpty = true
  · simpa [he] using h
  · simpa [he] using processRows_names_nodup (toRecords sheet) st h

def C8sheet : Sheet :=
  [[some (Cell.str ("Name")), some (Cell.str ("Category"))],
   [some (Cell.str (" ")), some (Cell.str ("Main"))]]

/-- C8 (counterexample): a row whose name cell is the whitespace-only
string " " is truthy, so it is not skipped, yet its trimmed name is
empty: the workbook produces an item whose name is the empty string,
refuting "every MenuItem.name is non-empty". -/
theorem whitespace_name_item_refuted :
    ((processWorkbook [C8sheet]).items).map (fun i => i.name) = [""] := by
  decide

/-- C8 (amended): item names are pairwise distinct across the merged
result of every workbook (merging is by exact, case-sensitive name
match), and a row whose resolved name cell is falsy (absent, empty or
zero) leaves the whole state — items and configuration — unchanged;
a whitespace-only name cell, however, creates an item with an empty
name. -/
theorem item_names_unique_nameless_skipped :
    (∀ wb : List Sheet, (((processWorkbook wb).items).map (fun i => i.name)).Nodup) ∧
    (∀ (st : PipeState) (row : Row),
      cellTruthy (rawNameOf row) = false → processRow st row = st) := by
  constructor
  · intro wb
    have hfold : ∀ (sheets : List Sheet) (st : PipeState),
        (st.items.map (fun i => i.name)).Nodup →
        (((sheets.foldl processSheet st).items).map (fun i => i.name)).Nodup := by
      intro sheets
      induction sheets with
      | nil => intro st h; exact h
      | cons s ss ih => intro st h; exact ih _ (processSheet_names_nodup s st h)
    exact hfold wb emptyState (by simp [emptyState])
  · intro st row h
    have hname0 : nameOf row = "" := by simp [nameOf, h]
    by_cases hcfg : isConfigRow row = true
    · have h1 : jsIncludes (jsToLower (nameOf row)) ("logo") = false := by
        rw [hname0]; decide
      have h2 : jsIncludes (jsToLower (nameOf row)) ("qr") = false := by
        rw [hname0]; decide
      have h3 : jsIncludes (jsToLower (nameOf row)) ("payment") = false := by
        rw [hname0]; decide
      have h4 : jsIncludes (jsToLower (nameOf row)) ("line") = false := by
        rw [hname0]; decide
      simp [processRow, hcfg, applyConfigRow, h1, h2, h3, h4]
    · simp [processRow, hcfg, h]

/-- C8 (witness): the nameless-row clause applied to a concrete row
with no name column. -/
theorem item_names_unique_nameless_skipped_witness :
    processRow emptyState [("Category", Cell.str ("Main"))] = emptyState :=
  item_names_unique_nameless_skipped.2 emptyState [("Category", Cell.str ("Main"))] (by decide)

/-- The value the row writes to `config.logoUrl`, `none` when the row
does not touch that key (not a configuration row, or another branch). -/
def logoWrite (row : Row) : Option String :=
  if isConfigRow row && jsIncludes (jsToLower (nameOf row)) ("logo")
  then some (processedImgOf row) else none

/-- The value the row writes to `config.qrCodeUrl`. -/
def qrWrite (row : Row) : Option String :=
  if isConfigRow row && !jsIncludes (jsToLower (nameOf row)) ("logo") &&
     (jsIncludes (jsToLower (nameOf row)) ("qr") || jsIncludes (jsToLower (nameOf row)) ("payment"))
  then some (processedImgOf row) else none

/-- The value the row writes to `config.lineOaId` ("line" rows with a
falsy `possibleId` write nothing). -/
def lineWrite (row : Row) : Option String :=
  if isConfigRow row && !jsIncludes (jsToLower (nameOf row)) ("logo") &&
     !(jsIncludes (jsToLower (nameOf row)) ("qr") || jsIncludes (jsToLower (nameOf row)) ("payment")) &&
     jsIncludes (jsToLower (nameOf row)) ("line")
  then (linePossibleId row).map extractLineId else none

theorem applyConfigRow_logoUrl (cfg : AppConfig) (row : Row) :
    (applyConfigRow cfg row).logoUrl =
      (if jsIncludes (jsToLower (nameOf row)) ("logo") then some (processedImgOf row)
       else cfg.logoUrl) := by
  cases hlp : linePossibleId row <;>
    simp only [applyConfigRow, hlp] <;> split_ifs <;> simp_all

theorem applyConfigRow_qrCodeUrl (cfg : AppConfig) (row : Row) :
    (applyConfigRow cfg row).qrCodeUrl =
      (if !jsIncludes (jsToLower (nameOf row)) ("logo") &&
          (jsIncludes (jsToLower (nameOf row)) ("qr") || jsIncludes (jsToLower (nameOf row)) ("payment"))
       then some (processedImgOf row) else cfg.qrCodeUrl) := by
  cases hlp : linePossibleId row <;>
    simp only [applyConfigRow, hlp] <;> split_ifs <;> simp_all

theorem applyConfigRow_lineOaId (cfg : AppConfig) (row : Row) :
    (applyConfigRow cfg row).lineOaId =
      (if !jsIncludes (jsToLower (nameOf row)) ("logo") &&
          !(jsIncludes (jsToLower (nameOf row)) ("qr") || jsIncludes (jsToLower (nameOf row)) ("payment")) &&
          jsIncludes (jsToLower (nameOf row)) ("line")
       then ((linePossibleId row).map extractLineId).or cfg.lineOaId
       else cfg.lineOaId) := by
  cases hlp : linePossibleId row <;>
    simp only [applyConfigRow, hlp] <;> split_ifs <;> simp_all [Option.or]

theorem processRow_config_nonconfig (st : PipeState) (row : Row)
    (h : isConfigRow row = false) : (processRow st row).config = st.config := by
  by_cases hname : cellTruthy (rawNameOf row) = true
  · simp [processRow, h, hname]
  · simp [processRow, h, hname]

theorem processRow_config_logo (st : PipeState) (row : Row) :
    (processRow st row).config.logoUrl = (logoWrite row).or st.config.logoUrl := by
  by_cases hcfg : isConfigRow row = true
  · have hred : (processRow st row).config = applyConfigRow st.config row := by
      simp [processRow, hcfg]
    rw [hred, applyConfigRow_logoUrl]
    unfold logoWrite
    by_cases hl : jsIncludes (jsToLower (nameOf row)) ("logo") = true <;>
      simp [hcfg, hl, Option.or]
  · have hcfg2 : isConfigRow row = false := by
      revert hcfg; cases isConfigRow row <;> simp
    rw [processRow_config_nonconfig st row hcfg2]
    unfold logoWrite
    simp [hcfg2, Option.or]

theorem processRow_config_qr (st : PipeState) (row : Row) :
    (processRow st row).config.qrCodeUrl = (qrWrite row).or st.config.qrCodeUrl := by
  by_cases hcfg : isConfigRow row = true
  · have hred : (processRow st row).config = applyConfigRow st.config row := by
      simp [processRow, hcfg]
    rw [hred, applyConfigRow_qrCodeUrl]
    unfold qrWrite
    by_cases hc : (!jsIncludes (jsToLower (nameOf row)) ("logo") &&
        (jsIncludes (jsToLower (nameOf row)) ("qr") ||
         jsIncludes (jsToLower (nameOf row)) ("payment"))) = true <;>
      simp [hcfg, hc, Option.or]
  · have hcfg2 : isConfigRow row = false := by
      revert hcfg; cases isConfigRow row <;> simp
    rw [processRow_config_nonconfig st row hcfg2]
    unfold qrWrite
    simp [hcfg2, Option.or]

theorem processRow_config_line (st : PipeState) (row : Row) :
    (processRow st row).config.lineOaId = (lineWrite row).or st.config.lineOaId := by
  by_cases hcfg : isConfigRow row = true
  · have hred : (processRow st row).config = applyConfigRow st.config row := by
      simp [processRow, hcfg]
    rw [hred, applyConfigRow_lineOaId]
    unfold lineWrite
    simp only [hcfg, Bool.true_and]
    split_ifs <;> cases hlp : linePossibleId row <;> simp [Option.or]
  · have hcfg2 : isConfigRow row = false := by
      revert hcfg; cases isConfigRow row <;> simp
    rw [processRow_config_nonconfig st row hcfg2]
    unfold lineWrite
    simp [hcfg2, Option.or]

theorem processRows_config_proj (proj : AppConfig → Option String) (w : Row → Option String)
    (hstep : ∀ (st : PipeState) (row : Row),
      proj (processRow st row).config = (w row).or (proj st.config)) :
    ∀ (rows : List Row) (st : PipeState),
      proj (processRows st rows).config = (rows.reverse.findSome? w).or (proj st.config) := by
  intro rows
  induction rows with
  | nil => intro st; simp [processRows]
  | cons r rs ih =>
    intro st
    have h1 : processRows st (r :: rs) = processRows (processRow st r) rs := rfl
    rw [h1, ih, hstep]
    rw [List.reverse_cons, List.findSome?_append]
    have h2 : [r].findSome? w = w r := by
      cases hw : w r <;> simp [List.findSome?, hw]
    rw [h2]
    cases rs.reverse.findSome? w <;> cases w r <;> simp [Option.or]

theorem processSheet_eq (st : PipeState) (sheet : Sheet) :
    processSheet st sheet = processRows st (toRecords sheet) := by
  unfold processSheet
  by_cases he : sheet.isEmpty = true
  · have hnil : sheet = [] := by
      cases sheet with
      | nil => rfl
      | cons x xs => simp [List.isEmpty] at he
    subst hnil
    simp [processRows, toRecords, scanHeader]
  · simp [he]

/-- The records of all sheets, in sheet-then-row processing order. -/
def allRecords (wb : List Sheet) : List Row :=
  (wb.map toRecords).flatten

theorem workbook_eq_processRows :
    ∀ (wb : List Sheet) (st : PipeState),
      wb.foldl processSheet st = processRows st (allRecords wb) := by
  intro wb
  induction wb with
  | nil => intro st; rfl
  | cons s ss ih =>
    intro st
    have h1 : (s :: ss).foldl processSheet st = ss.foldl processSheet (processSheet st s) := rfl
    rw [h1, ih, processSheet_eq]
    have h2 : allRecords (s :: ss) = toRecords s ++ allRecords ss := by
      simp [allRecords]
    rw [h2]
    exact (List.foldl_append processRow st (toRecords s) (allRecords ss)).symm

/-- C9: for each configuration key, the final value is exactly the
value written by the last row (in sheet-then-row processing order)
whose branch writes that key — last-write-wins, no merging: the
reversed record list is searched for the first (i.e. latest) write. -/
theorem config_last_write_wins (wb : List Sheet) :
    (processWorkbook wb).config.logoUrl = (allRecords wb).reverse.findSome? logoWrite ∧
    (processWorkbook wb).config.qrCodeUrl = (allRecords wb).reverse.findSome? qrWrite ∧
    (processWorkbook wb).config.lineOaId = (allRecords wb).reverse.findSome? lineWrite := by
  have hwb : (processWorkbook wb).config = (processRows emptyState (allRecords wb)).config := by
    simp [processWorkbook, workbook_eq_processRows]
  have hor : ∀ o : Option String, o.or none = o := by
    intro o; cases o <;> simp [Option.or]
  refine ⟨?_, ?_, ?_⟩ <;> rw [hwb]
  · rw [processRows_config_proj (fun c => c.logoUrl) logoWrite processRow_config_logo]
    exact hor _
  · rw [processRows_config_proj (fun c => c.qrCodeUrl) qrWrite processRow_config_qr]
    exact hor _
  · rw [processRows_config_proj (fun c => c.lineOaId) lineWrite processRow_config_line]
    exact hor _

/-- C10: a configuration row named ("logo") (resp. ("qr")/"payment") whose
image field does not resolve writes the empty string into
`config.logoUrl` (resp. `config.qrCodeUrl`), erasing any earlier value;
a "line" configuration row whose image and fallback fields are all
empty leaves `config.lineOaId` unchanged. -/
theorem config_empty_image_overwrite_vs_line :
    (∀ (st : PipeState) (row : Row),
      isConfigRow row = true →
      jsIncludes (jsToLower (nameOf row)) ("logo") = true →
      processedImgOf row = "" →
      (processRow st row).config.logoUrl = some ("")) ∧
    (∀ (st : PipeState) (row : Row),
      isConfigRow row = true →
      jsIncludes (jsToLower (nameOf row)) ("logo") = false →
      (jsIncludes (jsToLower (nameOf row)) ("qr") ||
        jsIncludes (jsToLower (nameOf row)) ("payment")) = true →
      processedImgOf row = "" →
      (processRow st row).config.qrCodeUrl = some ("")) ∧
    (∀ (st : PipeState) (row : Row),
      isConfigRow row = true →
      jsIncludes (jsToLower (nameOf row)) ("logo") = false →
      (jsIncludes (jsToLower (nameOf row)) ("qr") ||
        jsIncludes (jsToLower (nameOf row)) ("payment")) = false →
      jsIncludes (jsToLower (nameOf row)) ("line") = true →
      linePossibleId row = none →
      (processRow st row).config.lineOaId = st.config.lineOaId) := by
  refine ⟨?_, ?_, ?_⟩
  · intro st row hcfg hlogo himg
    have hred : (processRow st row).config = applyConfigRow st.config row := by
      simp [processRow, hcfg]
    rw [hred, applyConfigRow_logoUrl, if_pos hlogo, himg]
  · intro st row hcfg hlogo hqp himg
    have hred : (processRow st row).config = applyConfigRow st.config row := by
      simp [processRow, hcfg]
    rw [hred, applyConfigRow_qrCodeUrl, if_pos (by simp [hlogo, hqp]), himg]
  · intro st row hcfg hlogo hqp hline hlp
    have hred : (processRow st row).config = applyConfigRow st.config row := by
      simp [processRow, hcfg]
    rw [hred, applyConfigRow_lineOaId, if_pos (by simp [hlogo, hqp, hline]), hlp]
    simp [Option.or]

/-- The prior configuration used by the C10 witness. -/
def C10state : PipeState :=
  { items := [],
    config := { logoUrl := some ("http://old/logo.png"), qrCodeUrl := some ("http://old/qr.png"),
                lineOaId := some ("@keep") } }

/-- C10 (witness): on concrete ("Logo"), "QR" and ("Line") setting rows
with no image and no fallback columns, the logo and qr keys are erased
to the empty string while the line key keeps its earlier value. -/
theorem config_empty_image_overwrite_vs_line_witness :
    (processRow C10state [("Category", Cell.str ("Setting")), ("Name", Cell.str ("Logo"))]).config.logoUrl =
      some ("") ∧
    (processRow C10state [("Category", Cell.str ("Setting")), ("Name", Cell.str ("QR"))]).config.qrCodeUrl =
      some ("") ∧
    (processRow C10state [("Category", Cell.str ("Setting")), ("Name", Cell.str ("Line"))]).config.lineOaId =
      C10state.config.lineOaId :=
  ⟨config_empty_image_overwrite_vs_line.1 C10state
      [("Category", Cell.str ("Setting")), ("Name", Cell.str ("Logo"))]
      (by decide) (by decide) (by decide),
   config_empty_image_overwrite_vs_line.2.1 C10state
      [("Category", Cell.str ("Setting")), ("Name", Cell.str ("QR"))]
      (by decide) (by decide) (by decide) (by decide),
   config_empty_image_overwrite_vs_line.2.2 C10state
      [("Category", Cell.str ("Setting")), ("Name", Cell.str ("Line"))]
      (by decide) (by decide) (by decide) (by decide) (by decide)⟩
